import Mathlib

/-!
Shallow embedding of the polygon toolkit in src/API_work2.py: canonical
shape generators, vertex-wise transforms, lazy filters, fold aggregators,
and the geometry kernel (convexity test, shoelace area, perimeter,
ray-casting point-in-polygon).

A Python polygon (tuple of coordinate pairs) is embedded as a list of
pairs over a linear ordered field; functions free of trigonometry or
square roots are generic (so they are executable at rational inputs),
while rotation, the triangle/hexagon generators and every length
computation are stated over the reals.
-/

open Real

/-- A polygon is the ordered list of its vertices. -/
abbrev Polygon (α : Type) := List (α × α)

/-- One cyclic shift of a list: position i holds the old position
(i+1) % n.  Models the successor indexing poly[(i+1) % n] used by the
kernel loops and the pairing zip(p, p[1:] + p[:1]) used by the helpers. -/
def rot1 {β : Type} : List β → List β
  | [] => []
  | a :: l => l ++ [a]

/-- The directed edges of a polygon: each vertex paired with its cyclic
successor, the edge after the last vertex returning to the first. -/
def edges {α : Type} (poly : Polygon α) : List ((α × α) × (α × α)) :=
  poly.zip (rot1 poly)

section GenericDefs

variable {α : Type} [LinearOrderedField α]

/-- gen_rectangle: rectangle with the given width and height,
vertices ((0,0), (0,height), (width,height), (width,0)). -/
def gen_rectangle (width height : α) : Polygon α :=
  [(0, 0), (0, height), (width, height), (width, 0)]

/-- tr_translate: parallel translation of every vertex by (dx, dy). -/
def tr_translate (poly : Polygon α) (dx dy : α) : Polygon α :=
  poly.map (fun p => (p.1 + dx, p.2 + dy))

/-- tr_symmetry: reflection across a coordinate axis; the string
comparison axis == 'x' selects (x, -y), every other string falls through
to the (-x, y) branch. -/
def tr_symmetry (poly : Polygon α) (axis : String) : Polygon α :=
  if axis = "x" then poly.map (fun p => (p.1, -p.2))
  else poly.map (fun p => (-p.1, p.2))

/-- tr_homothety: scaling with coefficient k about center (cx, cy). -/
def tr_homothety (poly : Polygon α) (k : α) (cx cy : α) : Polygon α :=
  poly.map (fun p => (cx + (p.1 - cx) * k, cy + (p.2 - cy) * k))

/-- The list of cross products (x1-x0)*(y2-y1) - (y1-y0)*(x2-x1) over
all consecutive vertex triples (i, (i+1) % n, (i+2) % n) built by
is_convex. -/
def cross_products (poly : Polygon α) : List α :=
  (poly.zip ((rot1 poly).zip (rot1 (rot1 poly)))).map
    (fun t =>
      (t.2.1.1 - t.1.1) * (t.2.2.2 - t.2.1.2) -
        (t.2.1.2 - t.1.2) * (t.2.2.1 - t.2.1.1))

/-- is_convex: false on fewer than 3 vertices, otherwise all edge-pair
cross products are nonnegative or all are nonpositive. -/
def is_convex (poly : Polygon α) : Bool :=
  if poly.length < 3 then false
  else
    (cross_products poly).all (fun c => decide (0 ≤ c)) ||
      (cross_products poly).all (fun c => decide (c ≤ 0))

/-- The signed shoelace sum Σ (x_i * y_{i+1} - x_{i+1} * y_i) accumulated
by polygon_area before the absolute value. -/
def signedSum (poly : Polygon α) : α :=
  ((edges poly).map (fun e => e.1.1 * e.2.2 - e.2.1 * e.1.2)).sum

/-- polygon_area: half the absolute value of the shoelace sum. -/
def polygon_area (poly : Polygon α) : α :=
  |signedSum poly| / 2

/-- The signed shoelace area (half the signed sum, before the absolute
value is taken); its sign records the winding of the vertex order:
positive for counter-clockwise, negative for clockwise. -/
def signedArea (poly : Polygon α) : α :=
  signedSum poly / 2

/-- The boundary special case tested for one edge (p1, p2) of
point_in_polygon: the point lies in the edge's bounding box and the
cross term is below the tolerance 1e-12 in absolute value. -/
def onEdgeB (pt p1 p2 : α × α) : Bool :=
  (decide (min p1.1 p2.1 ≤ pt.1) && decide (pt.1 ≤ max p1.1 p2.1) &&
      decide (min p1.2 p2.2 ≤ pt.2) && decide (pt.2 ≤ max p1.2 p2.2)) &&
    decide
      (|(p2.1 - p1.1) * (pt.2 - p1.2) - (p2.2 - p1.2) * (pt.1 - p1.1)| <
        1 / 1000000000000)

/-- The parity-toggle condition tested for one edge (p1, p2) of
point_in_polygon: the endpoints straddle the point's y-coordinate and
the point is left of the edge's x-intercept at that y. -/
def toggleB (pt p1 p2 : α × α) : Bool :=
  (decide (p1.2 > pt.2) != decide (p2.2 > pt.2)) &&
    decide (pt.1 < (p2.1 - p1.1) * (pt.2 - p1.2) / (p2.2 - p1.2) + p1.1)

/-- The edge loop of point_in_polygon: an early return True on the
boundary special case, otherwise the parity accumulator is toggled on
straddling edges. -/
def pipLoop (pt : α × α) : List ((α × α) × (α × α)) → Bool → Bool
  | [], inside => inside
  | e :: rest, inside =>
    if onEdgeB pt e.1 e.2 then true
    else pipLoop pt rest (if toggleB pt e.1 e.2 then !inside else inside)

/-- point_in_polygon: ray-casting containment test with a boundary
special case, looping over all edges with accumulator initially False. -/
def point_in_polygon (poly : Polygon α) (pt : α × α) : Bool :=
  pipLoop pt (edges poly) false

/-- Whether some edge triggers the boundary special case of
point_in_polygon. -/
def boundaryAny (poly : Polygon α) (pt : α × α) : Bool :=
  (edges poly).any (fun e => onEdgeB pt e.1 e.2)

/-- The pure ray-casting parity over all edges, without the boundary
special case. -/
def rayParity (poly : Polygon α) (pt : α × α) : Bool :=
  (edges poly).foldl
    (fun inside e => if toggleB pt e.1 e.2 then !inside else inside) false

/-- The edge loop of point_in_polygon with the division by (y2 - y1)
guarded: the error branch none is taken when the divisor is zero at the
moment the Python expression would evaluate the division (that is, when
the straddle conjunct already holds). -/
def pipLoopChecked (pt : α × α) :
    List ((α × α) × (α × α)) → Bool → Option Bool
  | [], inside => some inside
  | e :: rest, inside =>
    if onEdgeB pt e.1 e.2 then some true
    else
      if decide (e.1.2 > pt.2) != decide (e.2.2 > pt.2) then
        if e.2.2 - e.1.2 = 0 then none
        else
          pipLoopChecked pt rest
            (if decide
                (pt.1 <
                  (e.2.1 - e.1.1) * (pt.2 - e.1.2) / (e.2.2 - e.1.2) + e.1.1)
             then !inside else inside)
      else pipLoopChecked pt rest inside

/-- point_in_polygon with every division checked for a zero divisor. -/
def point_in_polygon_checked (poly : Polygon α) (pt : α × α) : Option Bool :=
  pipLoopChecked pt (edges poly) false

/-- flt_point_inside: keeps the polygons that are convex and contain the
point. -/
def flt_point_inside (polygons : List (Polygon α)) (pt : α × α) :
    List (Polygon α) :=
  polygons.filter (fun p => is_convex p && point_in_polygon p pt)

end GenericDefs

/-- math.radians: degrees to radians, d * π / 180. -/
noncomputable def degToRad (d : ℝ) : ℝ :=
  d * Real.pi / 180

/-- gen_triangle: equilateral triangle with the given side,
vertices ((0,0), (side,0), (side/2, height)) with
height = side * sqrt 3 / 2. -/
noncomputable def gen_triangle (side : ℝ) : Polygon ℝ :=
  [(0, 0), (side, 0), (side / 2, side * Real.sqrt 3 / 2)]

/-- gen_hexagon: regular hexagon with the given side, one vertex per
angle in range(0, 360, 60), at (side*cos(radians a), side*sin(radians a)). -/
noncomputable def gen_hexagon (side : ℝ) : Polygon ℝ :=
  ([0, 60, 120, 180, 240, 300] : List ℝ).map
    (fun a => (side * Real.cos (degToRad a), side * Real.sin (degToRad a)))

/-- tr_rotate: rotation of the polygon by angle_deg degrees about
(cx, cy); the angle is converted to radians internally. -/
noncomputable def tr_rotate (poly : Polygon ℝ) (angle_deg : ℝ)
    (cx cy : ℝ) : Polygon ℝ :=
  poly.map
    (fun p =>
      (cx + (p.1 - cx) * Real.cos (degToRad angle_deg) -
         (p.2 - cy) * Real.sin (degToRad angle_deg),
       cy + (p.1 - cx) * Real.sin (degToRad angle_deg) +
         (p.2 - cy) * Real.cos (degToRad angle_deg)))

/-- math.hypot: the Euclidean norm sqrt (a^2 + b^2). -/
noncomputable def hypot (a b : ℝ) : ℝ :=
  Real.sqrt (a ^ 2 + b ^ 2)

/-- polygon_perimeter: sum of the Euclidean lengths of all edges,
wrapping last-to-first. -/
noncomputable def polygon_perimeter (poly : Polygon ℝ) : ℝ :=
  ((edges poly).map (fun e => hypot (e.2.1 - e.1.1) (e.2.2 - e.1.2))).sum

/-- The extended-real distance-to-origin key used to compare candidate
vertices in agr_origin_nearest.  The Python key math.hypot(px, py) is
replaced by its square px^2 + py^2, a strictly monotone
reparameterization that induces the same comparisons, extended so that
the seed (+inf, +inf) has key +inf. -/
noncomputable def originKey (p : EReal × EReal) : EReal :=
  p.1 * p.1 + p.2 * p.2

/-- One step of agr_origin_nearest: the first-minimal element, by
originKey, of the polygon's vertices followed by the closest-so-far
(Python min over the tuple (*poly, closest), ties resolved to the
earliest item). -/
noncomputable def nearestStep (closest : EReal × EReal) (poly : Polygon ℝ) :
    EReal × EReal :=
  match poly.map (fun p => ((p.1 : EReal), (p.2 : EReal))) ++ [closest] with
  | [] => closest
  | a :: rest =>
    rest.foldl (fun best p => if originKey p < originKey best then p else best) a

/-- agr_origin_nearest: fold of nearestStep with seed (+inf, +inf). -/
noncomputable def agr_origin_nearest (polygons : List (Polygon ℝ)) :
    EReal × EReal :=
  polygons.foldl nearestStep (⊤, ⊤)

/-- agr_max_side: fold, with seed 0.0, of the maximum edge length of
each polygon against the accumulator; a polygon with no edges makes the
inner Python max raise on an empty sequence, modelled as none. -/
noncomputable def agr_max_side (polygons : List (Polygon ℝ)) : Option ℝ :=
  polygons.foldlM
    (fun max_len poly =>
      match (edges poly).map (fun e => hypot (e.2.1 - e.1.1) (e.2.2 - e.1.2)) with
      | [] => none
      | l => some (l.foldl max max_len))
    (0 : ℝ)

/-- agr_min_area: fold of min over polygon areas with seed +inf (the
float infinity embedded as the top extended real). -/
noncomputable def agr_min_area (polygons : List (Polygon ℝ)) : EReal :=
  polygons.foldl (fun min_a poly => min min_a ((polygon_area poly : ℝ) : EReal))
    (⊤ : EReal)

/-- agr_perimeter: sum of all polygon perimeters, seed 0.0. -/
noncomputable def agr_perimeter (polygons : List (Polygon ℝ)) : ℝ :=
  polygons.foldl (fun total poly => total + polygon_perimeter poly) (0 : ℝ)

/-- agr_area: sum of all polygon areas, seed 0.0. -/
noncomputable def agr_area (polygons : List (Polygon ℝ)) : ℝ :=
  polygons.foldl (fun total poly => total + polygon_area poly) (0 : ℝ)

/-! ### Helper lemmas -/

theorem rot1_map {β γ : Type} (g : β → γ) (l : List β) :
    rot1 (l.map g) = (rot1 l).map g := by
  cases l <;> simp [rot1]

theorem rot1_length {β : Type} (l : List β) : (rot1 l).length = l.length := by
  cases l <;> simp [rot1]

theorem edges_map {α : Type} (g : (α × α) → (α × α)) (poly : Polygon α) :
    edges (poly.map g) = (edges poly).map (fun e => (g e.1, g e.2)) := by
  unfold edges
  rw [rot1_map, List.zip_map]
  rfl

section SumLemmas

variable {α : Type} [LinearOrderedField α] {β : Type}

theorem list_sum_map_add (f g : β → α) (l : List β) :
    (l.map fun x => f x + g x).sum = (l.map f).sum + (l.map g).sum := by
  induction l with
  | nil => simp
  | cons a t ih => simp [ih]; ring

theorem list_sum_map_sub (f g : β → α) (l : List β) :
    (l.map fun x => f x - g x).sum = (l.map f).sum - (l.map g).sum := by
  induction l with
  | nil => simp
  | cons a t ih => simp [ih]; ring

theorem list_sum_map_mul (a : α) (f : β → α) (l : List β) :
    (l.map fun x => a * f x).sum = a * (l.map f).sum := by
  induction l with
  | nil => simp
  | cons x t ih => simp [ih]; ring

theorem list_sum_map_eq_of (f g : β → α) (l : List β)
    (h : ∀ x ∈ l, f x = g x) : (l.map f).sum = (l.map g).sum := by
  rw [List.map_congr_left h]

theorem sum_rot1 (l : List α) : (rot1 l).sum = l.sum := by
  cases l with
  | nil => rfl
  | cons a t => simp [rot1]; ring

theorem edges_telescope (f : α × α → α) (poly : Polygon α) :
    ((edges poly).map fun e => f e.2 - f e.1).sum = 0 := by
  have h1 : ((edges poly).map fun e => f e.1) = poly.map f := by
    have hz : ((poly.zip (rot1 poly)).map Prod.fst) = poly :=
      List.map_fst_zip _ _ (le_of_eq (rot1_length poly).symm)
    calc ((edges poly).map fun e => f e.1)
        = ((poly.zip (rot1 poly)).map Prod.fst).map f := by
          rw [List.map_map]; rfl
      _ = poly.map f := by rw [hz]
  have h2 : ((edges poly).map fun e => f e.2) = (rot1 poly).map f := by
    have hz : ((poly.zip (rot1 poly)).map Prod.snd) = rot1 poly :=
      List.map_snd_zip _ _ (le_of_eq (rot1_length poly))
    calc ((edges poly).map fun e => f e.2)
        = ((poly.zip (rot1 poly)).map Prod.snd).map f := by
          rw [List.map_map]; rfl
      _ = (rot1 poly).map f := by rw [hz]
  rw [list_sum_map_sub, h1, h2, ← rot1_map, sum_rot1, sub_self]

theorem edges_telescope_fst (poly : Polygon α) :
    ((edges poly).map fun e => e.2.1 - e.1.1).sum = 0 :=
  edges_telescope (fun v => v.1) poly

theorem edges_telescope_snd (poly : Polygon α) :
    ((edges poly).map fun e => e.2.2 - e.1.2).sum = 0 :=
  edges_telescope (fun v => v.2) poly

theorem signedSum_affine (a b c d e f : α) (poly : Polygon α) :
    signedSum (poly.map fun p => (e + a * p.1 + b * p.2, f + c * p.1 + d * p.2)) =
      (a * d - b * c) * signedSum poly := by
  unfold signedSum
  calc ((edges (poly.map fun p =>
            (e + a * p.1 + b * p.2, f + c * p.1 + d * p.2))).map
          fun e' => e'.1.1 * e'.2.2 - e'.2.1 * e'.1.2).sum
      = ((edges poly).map fun ed =>
          (a * d - b * c) * (ed.1.1 * ed.2.2 - ed.2.1 * ed.1.2) +
            ((e * c - a * f) * (ed.2.1 - ed.1.1) +
              (e * d - b * f) * (ed.2.2 - ed.1.2))).sum := by
        rw [edges_map, List.map_map]
        exact list_sum_map_eq_of _ _ _ (fun ed _ => by
          simp only [Function.comp_apply]; ring)
    _ = (a * d - b * c) *
          ((edges poly).map fun e' => e'.1.1 * e'.2.2 - e'.2.1 * e'.1.2).sum := by
        rw [list_sum_map_add, list_sum_map_add, list_sum_map_mul,
          list_sum_map_mul, list_sum_map_mul, edges_telescope_fst,
          edges_telescope_snd]
        ring

end SumLemmas

section TransformLemmas

variable {α : Type} [LinearOrderedField α]

theorem signedSum_translate (poly : Polygon α) (dx dy : α) :
    signedSum (tr_translate poly dx dy) = signedSum poly := by
  have h : tr_translate poly dx dy =
      poly.map fun p => (dx + 1 * p.1 + 0 * p.2, dy + 0 * p.1 + 1 * p.2) := by
    unfold tr_translate
    exact List.map_congr_left (fun p _ => by apply Prod.ext <;> simp <;> ring)
  rw [h, signedSum_affine]; ring

theorem signedSum_symmetry (poly : Polygon α) (axis : String) :
    signedSum (tr_symmetry poly axis) = -signedSum poly := by
  unfold tr_symmetry
  by_cases hx : axis = "x"
  · rw [if_pos hx]
    have h : (poly.map fun p => (p.1, -p.2)) =
        poly.map fun p => ((0 : α) + 1 * p.1 + 0 * p.2, 0 + 0 * p.1 + (-1) * p.2) :=
      List.map_congr_left (fun p _ => by apply Prod.ext <;> simp)
    rw [h, signedSum_affine]; ring
  · rw [if_neg hx]
    have h : (poly.map fun p => (-p.1, p.2)) =
        poly.map fun p => ((0 : α) + (-1) * p.1 + 0 * p.2, 0 + 0 * p.1 + 1 * p.2) :=
      List.map_congr_left (fun p _ => by apply Prod.ext <;> simp)
    rw [h, signedSum_affine]; ring

theorem signedSum_homothety (poly : Polygon α) (k cx cy : α) :
    signedSum (tr_homothety poly k cx cy) = k * k * signedSum poly := by
  have h : tr_homothety poly k cx cy =
      poly.map fun p =>
        ((cx - cx * k) + k * p.1 + 0 * p.2, (cy - cy * k) + 0 * p.1 + k * p.2) := by
    unfold tr_homothety
    exact List.map_congr_left (fun p _ => by apply Prod.ext <;> simp <;> ring)
  rw [h, signedSum_affine]; ring

theorem signedSum_rotate (poly : Polygon ℝ) (θ cx cy : ℝ) :
    signedSum (tr_rotate poly θ cx cy) = signedSum poly := by
  have h : tr_rotate poly θ cx cy =
      poly.map fun p =>
        ((cx - cx * Real.cos (degToRad θ) + cy * Real.sin (degToRad θ)) +
           Real.cos (degToRad θ) * p.1 + (-Real.sin (degToRad θ)) * p.2,
         (cy - cx * Real.sin (degToRad θ) - cy * Real.cos (degToRad θ)) +
           Real.sin (degToRad θ) * p.1 + Real.cos (degToRad θ) * p.2) := by
    unfold tr_rotate
    exact List.map_congr_left (fun p _ => by apply Prod.ext <;> simp <;> ring)
  rw [h, signedSum_affine]
  have h1 : Real.cos (degToRad θ) * Real.cos (degToRad θ) -
      -Real.sin (degToRad θ) * Real.sin (degToRad θ) = 1 := by
    linear_combination Real.sin_sq_add_cos_sq (degToRad θ)
  rw [h1, one_mul]

end TransformLemmas

section LoopLemmas

variable {α : Type} [LinearOrderedField α]

theorem pipLoop_eq (pt : α × α) (es : List ((α × α) × (α × α))) (ins : Bool) :
    pipLoop pt es ins =
      ((es.any fun e => onEdgeB pt e.1 e.2) ||
        es.foldl (fun i e => if toggleB pt e.1 e.2 then !i else i) ins) := by
  induction es generalizing ins with
  | nil => simp [pipLoop]
  | cons e rest ih =>
    simp only [pipLoop, List.any_cons, List.foldl_cons]
    by_cases h : onEdgeB pt e.1 e.2 = true
    · simp [h]
    · simp [h, ih]

theorem pipLoopChecked_eq (pt : α × α) (es : List ((α × α) × (α × α)))
    (ins : Bool) : pipLoopChecked pt es ins = some (pipLoop pt es ins) := by
  induction es generalizing ins with
  | nil => rfl
  | cons e rest ih =>
    simp only [pipLoopChecked, pipLoop]
    by_cases h1 : onEdgeB pt e.1 e.2 = true
    · simp [h1]
    · by_cases h2 : (decide (e.1.2 > pt.2) != decide (e.2.2 > pt.2)) = true
      · have hne : ¬(e.2.2 - e.1.2 = 0) := by
          intro h0
          have h3 : e.2.2 = e.1.2 := sub_eq_zero.mp h0
          rw [h3] at h2
          simp at h2
        simp [h1, h2, hne, toggleB, ih]
      · simp [h1, h2, toggleB, ih]

end LoopLemmas

/-! ### Claims -/

/-- C1: point_in_polygon classifies a point as inside exactly when some
edge triggers the boundary special case (bounding box and cross term
below 1e-12) or the ray-casting parity over all edges is odd; concretely
on Rectangle(2,2) the point (1,1) is inside, (3,3) is outside, and the
edge point (0,1) is inside. -/
theorem C1_point_in_polygon_boundary_or_parity :
    (∀ (poly : Polygon ℝ) (pt : ℝ × ℝ),
        point_in_polygon poly pt = (boundaryAny poly pt || rayParity poly pt)) ∧
      point_in_polygon (gen_rectangle (2 : ℚ) 2) (1, 1) = true ∧
      point_in_polygon (gen_rectangle (2 : ℚ) 2) (3, 3) = false ∧
      point_in_polygon (gen_rectangle (2 : ℚ) 2) (0, 1) = true := by
  refine ⟨fun poly pt => pipLoop_eq pt (edges poly) false, ?_, ?_, ?_⟩ <;>
    norm_num [point_in_polygon, pipLoop, edges, rot1, gen_rectangle, onEdgeB,
      toggleB, min_def, max_def, abs]

/-- C2 counterexample: the vertex order of gen_rectangle is not
counter-clockwise; at width = height = 2 the signed shoelace area is -4,
which is not positive. -/
theorem C2_ccw_counterexample :
    signedArea (gen_rectangle (2 : ℚ) 2) = -4 ∧
      ¬(0 < signedArea (gen_rectangle (2 : ℚ) 2)) := by
  constructor <;> norm_num [signedArea, signedSum, gen_rectangle, edges, rot1]

/-- C2 (amended): for every positive width and height, gen_rectangle
returns exactly the vertices (0,0),(0,h),(w,h),(w,0) in that order, and
this order is clockwise: its signed shoelace area is negative. -/
theorem C2_rectangle_vertices_clockwise (w h : ℝ) (hw : 0 < w) (hh : 0 < h) :
    gen_rectangle w h = [(0, 0), (0, h), (w, h), (w, 0)] ∧
      signedArea (gen_rectangle w h) < 0 := by
  refine ⟨rfl, ?_⟩
  have hs : signedSum (gen_rectangle w h) = -(2 * (w * h)) := by
    simp [signedSum, gen_rectangle, edges, rot1]
    ring
  rw [signedArea, hs]
  nlinarith

/-- C2 witness: the amended statement at width = height = 2. -/
theorem C2_rectangle_vertices_clockwise_witness :
    (0 : ℝ) < 2 ∧ (0 : ℝ) < 2 ∧
      (gen_rectangle (2 : ℝ) 2 = [(0, 0), (0, 2), (2, 2), (2, 0)] ∧
        signedArea (gen_rectangle (2 : ℝ) 2) < 0) :=
  ⟨by norm_num, by norm_num,
    C2_rectangle_vertices_clockwise 2 2 (by norm_num) (by norm_num)⟩

/-- C4: flt_point_inside passes exactly the polygons that are convex and
contain the point; concretely the non-convex arrow polygon
((0,0),(2,1),(4,0),(2,4)) geometrically contains (2,2) yet is not
passed. -/
theorem C4_flt_point_inside_convex_and_contains :
    (∀ (polys : List (Polygon ℝ)) (pt : ℝ × ℝ) (p : Polygon ℝ),
        p ∈ flt_point_inside polys pt ↔
          p ∈ polys ∧ is_convex p = true ∧ point_in_polygon p pt = true) ∧
      (is_convex ([(0, 0), (2, 1), (4, 0), (2, 4)] : Polygon ℚ) = false ∧
        point_in_polygon ([(0, 0), (2, 1), (4, 0), (2, 4)] : Polygon ℚ)
            (2, 2) = true ∧
        flt_point_inside [([(0, 0), (2, 1), (4, 0), (2, 4)] : Polygon ℚ)]
            (2, 2) = []) := by
  constructor
  · intro polys pt p
    simp only [flt_point_inside, List.mem_filter, Bool.and_eq_true]
  · refine ⟨?_, ?_, ?_⟩
    · norm_num [is_convex, cross_products, rot1]
    · norm_num [point_in_polygon, pipLoop, edges, rot1, onEdgeB, toggleB,
        min_def, max_def, abs]
    · norm_num [flt_point_inside, is_convex, cross_products, rot1]

/-- C5: on the empty polygon sequence every aggregator returns its seed:
agr_origin_nearest the sentinel (+inf, +inf), agr_max_side 0.0,
agr_min_area +inf, agr_perimeter 0.0 and agr_area 0.0. -/
theorem C5_aggregators_empty_identities :
    agr_origin_nearest [] = ((⊤ : EReal), (⊤ : EReal)) ∧
      agr_max_side [] = some (0 : ℝ) ∧
      agr_min_area [] = (⊤ : EReal) ∧
      agr_perimeter [] = (0 : ℝ) ∧
      agr_area [] = (0 : ℝ) :=
  ⟨rfl, rfl, rfl, rfl, rfl⟩

/-- C6: a degenerate polygon of fewer than 3 vertices has polygon_area 0
and is never convex, with no error. -/
theorem C6_degenerate_polygon_results (poly : Polygon ℝ)
    (h : poly.length < 3) :
    polygon_area poly = 0 ∧ is_convex poly = false := by
  have hc : is_convex poly = false := by simp [is_convex, h]
  refine ⟨?_, hc⟩
  rcases poly with _ | ⟨a, _ | ⟨b, _ | ⟨c, t⟩⟩⟩
  · simp [polygon_area, signedSum, edges, rot1]
  · have hs : signedSum [a] = 0 := by simp [signedSum, edges, rot1]
    simp [polygon_area, hs]
  · have hs : signedSum [a, b] = 0 := by
      simp [signedSum, edges, rot1]
    simp [polygon_area, hs]
  · exfalso
    simp at h
    omega

/-- C6 witness: the single-vertex polygon ((1,2)). -/
theorem C6_degenerate_polygon_results_witness :
    List.length ([((1 : ℝ), 2)] : Polygon ℝ) < 3 ∧
      (polygon_area ([((1 : ℝ), 2)] : Polygon ℝ) = 0 ∧
        is_convex ([((1 : ℝ), 2)] : Polygon ℝ) = false) :=
  ⟨by simp, C6_degenerate_polygon_results _ (by simp)⟩

/-- C7: translating by (dx, dy) then by (-dx, -dy) is the identity on
polygons, and rotating by an angle then by its negation about the same
center is the identity, exactly over real arithmetic. -/
theorem C7_translate_rotate_roundtrip :
    (∀ (poly : Polygon ℝ) (dx dy : ℝ),
        tr_translate (tr_translate poly dx dy) (-dx) (-dy) = poly) ∧
      ∀ (poly : Polygon ℝ) (θ cx cy : ℝ),
        tr_rotate (tr_rotate poly θ cx cy) (-θ) cx cy = poly := by
  constructor
  · intro poly dx dy
    unfold tr_translate
    rw [List.map_map]
    refine Eq.trans (List.map_congr_left ?_) (List.map_id poly)
    intro p _
    obtain ⟨x, y⟩ := p
    simp only [Function.comp_apply, id_eq, Prod.mk.injEq]
    constructor <;> ring
  · intro poly θ cx cy
    have hdeg : degToRad (-θ) = -degToRad θ := by unfold degToRad; ring
    unfold tr_rotate
    rw [List.map_map]
    refine Eq.trans (List.map_congr_left ?_) (List.map_id poly)
    intro p _
    obtain ⟨x, y⟩ := p
    simp only [Function.comp_apply, id_eq, hdeg, Real.cos_neg, Real.sin_neg,
      Prod.mk.injEq]
    constructor
    · linear_combination (x - cx) * Real.sin_sq_add_cos_sq (degToRad θ)
    · linear_combination (y - cy) * Real.sin_sq_add_cos_sq (degToRad θ)

/-- C9: the division by (y2 - y1) in the parity branch of
point_in_polygon is always well-defined: the guarded-division embedding
never reaches its error branch and agrees with the total function. -/
theorem C9_parity_division_never_zero (poly : Polygon ℝ) (pt : ℝ × ℝ) :
    point_in_polygon_checked poly pt = some (point_in_polygon poly pt) :=
  pipLoopChecked_eq pt (edges poly) false

/-- C10: tr_symmetry is total in its axis argument: every axis string
other than "x" selects the reflection across the y-axis (x, y) to
(-x, y), and axis "x" maps (x, y) to (x, -y); no input raises. -/
theorem C10_tr_symmetry_total :
    (∀ (poly : Polygon ℝ) (axis : String), axis ≠ "x" →
        tr_symmetry poly axis = poly.map fun p => (-p.1, p.2)) ∧
      ∀ poly : Polygon ℝ, tr_symmetry poly "x" = poly.map fun p => (p.1, -p.2) := by
  constructor
  · intro poly axis h
    simp [tr_symmetry, h]
  · intro poly
    simp [tr_symmetry]

/-- C10 witness: the axis string "abc" (neither "x" nor "y") reflects
((1,2)) across the y-axis. -/
theorem C10_tr_symmetry_total_witness :
    "abc" ≠ "x" ∧ tr_symmetry ([((1 : ℝ), 2)] : Polygon ℝ) "abc" = [(-1, 2)] := by
  refine ⟨by decide, ?_⟩
  rw [C10_tr_symmetry_total.1 _ "abc" (by decide)]
  norm_num

/-- C3: polygon_area is nonnegative, invariant under tr_translate,
tr_symmetry (either axis string) and tr_rotate (any angle and center),
and scales by k^2 under tr_homothety with ratio k. -/
theorem C3_area_nonneg_and_invariant :
    (∀ poly : Polygon ℝ, 0 ≤ polygon_area poly) ∧
      (∀ (poly : Polygon ℝ) (dx dy : ℝ),
        polygon_area (tr_translate poly dx dy) = polygon_area poly) ∧
      (∀ (poly : Polygon ℝ) (axis : String),
        polygon_area (tr_symmetry poly axis) = polygon_area poly) ∧
      (∀ (poly : Polygon ℝ) (θ cx cy : ℝ),
        polygon_area (tr_rotate poly θ cx cy) = polygon_area poly) ∧
      ∀ (poly : Polygon ℝ) (k cx cy : ℝ),
        polygon_area (tr_homothety poly k cx cy) = k ^ 2 * polygon_area poly := by
  refine ⟨?_, ?_, ?_, ?_, ?_⟩
  · intro poly
    unfold polygon_area
    positivity
  · intro poly dx dy
    unfold polygon_area
    rw [signedSum_translate]
  · intro poly axis
    unfold polygon_area
    rw [signedSum_symmetry, abs_neg]
  · intro poly θ cx cy
    unfold polygon_area
    rw [signedSum_rotate]
  · intro poly k cx cy
    unfold polygon_area
    rw [signedSum_homothety, abs_mul, abs_of_nonneg (mul_self_nonneg k)]
    ring

theorem is_convex_of_nonneg {α : Type} [LinearOrderedField α] (poly : Polygon α)
    (h3 : 3 ≤ poly.length) (h : ∀ c ∈ cross_products poly, 0 ≤ c) :
    is_convex poly = true := by
  simp only [is_convex, if_neg (by omega : ¬(poly.length < 3)),
    Bool.or_eq_true, List.all_eq_true, decide_eq_true_eq]
  left
  exact h

theorem is_convex_of_nonpos {α : Type} [LinearOrderedField α] (poly : Polygon α)
    (h3 : 3 ≤ poly.length) (h : ∀ c ∈ cross_products poly, c ≤ 0) :
    is_convex poly = true := by
  simp only [is_convex, if_neg (by omega : ¬(poly.length < 3)),
    Bool.or_eq_true, List.all_eq_true, decide_eq_true_eq]
  right
  exact h

theorem gen_hexagon_eq (s : ℝ) :
    gen_hexagon s =
      [(s, 0), (s / 2, s * (Real.sqrt 3 / 2)), (-(s / 2), s * (Real.sqrt 3 / 2)),
        (-s, 0), (-(s / 2), -(s * (Real.sqrt 3 / 2))),
        (s / 2, -(s * (Real.sqrt 3 / 2)))] := by
  unfold gen_hexagon
  have h0 : degToRad 0 = 0 := by unfold degToRad; ring
  have h60 : degToRad 60 = Real.pi / 3 := by unfold degToRad; ring
  have h120 : degToRad 120 = Real.pi - Real.pi / 3 := by unfold degToRad; ring
  have h180 : degToRad 180 = Real.pi := by unfold degToRad; ring
  have h240 : degToRad 240 = Real.pi + Real.pi / 3 := by unfold degToRad; ring
  have h300 : degToRad 300 = 2 * Real.pi - Real.pi / 3 := by unfold degToRad; ring
  simp only [List.map_cons, List.map_nil, h0, h60, h120, h180, h240, h300,
    Real.cos_zero, Real.sin_zero, Real.cos_pi_sub, Real.sin_pi_sub, Real.cos_pi,
    Real.sin_pi, Real.cos_add, Real.sin_add, Real.cos_sub, Real.sin_sub,
    Real.cos_two_pi, Real.sin_two_pi, Real.cos_pi_div_three,
    Real.sin_pi_div_three]
  norm_num [Prod.mk.injEq]
  ring

/-- C8: for strictly positive dimensions every generator output is
convex: gen_rectangle, gen_triangle and gen_hexagon all pass is_convex. -/
theorem C8_generators_convex (w h s : ℝ) (hw : 0 < w) (hh : 0 < h)
    (hs : 0 < s) :
    is_convex (gen_rectangle w h) = true ∧
      is_convex (gen_triangle s) = true ∧
      is_convex (gen_hexagon s) = true := by
  refine ⟨?_, ?_, ?_⟩
  · apply is_convex_of_nonpos
    · simp [gen_rectangle]
    · intro c hc
      simp [gen_rectangle, cross_products, rot1] at hc
      rcases hc with h1 | h1 | h1 | h1 <;> subst h1 <;> nlinarith
  · apply is_convex_of_nonneg
    · simp [gen_triangle]
    · intro c hc
      simp [gen_triangle, cross_products, rot1] at hc
      rcases hc with h1 | h1 | h1 <;> subst h1 <;>
        nlinarith [Real.sqrt_nonneg 3, sq_nonneg s, hs]
  · rw [gen_hexagon_eq]
    apply is_convex_of_nonneg
    · simp
    · intro c hc
      simp [cross_products, rot1] at hc
      rcases hc with h1 | h1 | h1 | h1 | h1 | h1 <;> subst h1 <;>
        nlinarith [Real.sqrt_nonneg 3, sq_nonneg s, hs]

/-- C8 witness: all three generators at dimension 1. -/
theorem C8_generators_convex_witness :
    (0 : ℝ) < 1 ∧ (0 : ℝ) < 1 ∧ (0 : ℝ) < 1 ∧
      (is_convex (gen_rectangle (1 : ℝ) 1) = true ∧
        is_convex (gen_triangle 1) = true ∧
        is_convex (gen_hexagon 1) = true) :=
  ⟨one_pos, one_pos, one_pos, C8_generators_convex 1 1 1 one_pos one_pos one_pos⟩
